import Mathlib

/-!
Shallow embedding of the market-data aggregator of
`high-performance-streaming-pipeline` (the C++ translation unit containing
`update_latency_stats`, `stats_reporter`, `batch_writer` and `main`), together
with proofs about the embedded definitions.

Modelling conventions:
* C++ `long long` counters and timestamps are modelled as `Int` (no claim under
  consideration depends on 64-bit wraparound); `double` values that are only
  carried around or whose sign is at stake (`price`, `latency_ms`) are modelled
  as `Rat`, which agrees with IEEE semantics on the sign of `x / 1e6`.
* Clock reads (`current_timestamp_ns`, `steady_clock::now`) and external inputs
  (Kafka poll results, protobuf decode outcomes, Postgres flush results) are
  inputs of the embedded step functions.
* Each worker loop is embedded as a step function on an explicit state; shared
  mutable state touched under `queue_mutex` is part of that state, and the
  interleaving of the Dispatcher and the Batch Writer on the shared queue is a
  fold over an explicit operation schedule.
* Calls into external services (`redisAppendCommand`, `redisGetReply`,
  `PQexec`) are recorded as observable traces in the state (`cache_log`,
  `acks_read`, `flushes`); the lock-free min/max update of
  `update_latency_stats` is additionally given a fine-grained interleaving
  semantics (`cas_step`) that models the `compare_exchange_weak` retry loop
  instruction by instruction.
-/

namespace StreamPipeline

/-- `LLONG_MAX`, the initialiser of the atomic `min_latency_ns` global. -/
def LLONG_MAX : Int := 2 ^ 63 - 1

/-- `const int BATCH_SIZE = 5000` in `batch_writer`. -/
def BATCH_SIZE : Nat := 5000

/-- `const int FLUSH_INTERVAL_MS = 100` in `batch_writer`. -/
def FLUSH_INTERVAL_MS : Int := 100

/-- The literal `100` threshold on `redis_pipeline_count` in `main`. -/
def REDIS_PIPELINE_THRESHOLD : Nat := 100

/-- A decoded `marketdata::MarketUpdate` protobuf message. -/
structure MarketUpdate where
  ticker : String
  price : Rat
  volume : Int
  timestamp_ns : Int
deriving DecidableEq, Repr

/-- `struct MessageBatch`: the element type of the durable queue. -/
structure MessageBatch where
  ticker : String
  price : Rat
  volume : Int
  timestamp_ns : Int
  latency_ms : Rat
deriving DecidableEq, Repr

/-- The four atomic globals `total_processed`, `total_latency_ns`,
`min_latency_ns`, `max_latency_ns`. -/
structure LatencyStats where
  total_processed : Int
  total_latency_ns : Int
  min_latency_ns : Int
  max_latency_ns : Int
deriving DecidableEq, Repr

/-- Initial values of the four atomic globals. -/
def statsInit : LatencyStats :=
  { total_processed := 0
    total_latency_ns := 0
    min_latency_ns := LLONG_MAX
    max_latency_ns := 0 }

/-- `update_latency_stats`, under sequential (single-caller) semantics: the
count and sum are incremented, and each `compare_exchange_weak` retry loop,
running without interference, is equivalent to one conditional overwrite of
the extremum.  The fine-grained concurrent semantics of the two retry loops is
modelled separately by `cas_step` below. -/
def update_latency_stats (st : LatencyStats) (latency_ns : Int) : LatencyStats :=
  { total_processed := st.total_processed + 1
    total_latency_ns := st.total_latency_ns + latency_ns
    min_latency_ns :=
      if latency_ns < st.min_latency_ns then latency_ns else st.min_latency_ns
    max_latency_ns :=
      if st.max_latency_ns < latency_ns then latency_ns else st.max_latency_ns }

/-- The latency computation of the main loop:
`long long latency_ns = arrival_timestamp - update.timestamp_ns();
 if (latency_ns < 0) latency_ns = 0;`. -/
def clamped_latency_ns (arrival produce : Int) : Int :=
  if arrival - produce < 0 then 0 else arrival - produce

/-- `double latency_ms = latency_ns / 1e6;` (sign-exact rational model). -/
def latency_ms_of (latency_ns : Int) : Rat := (latency_ns : Rat) / 1000000

/-- Outcome of one `rd_kafka_consumer_poll` call, as the main loop
discriminates it: a null return (timeout), a message carrying a transport
error, or a payload together with its protobuf decode result (`none` when
`ParseFromArray` fails). -/
inductive Poll where
  | timeout
  | kafkaError
  | record (decoded : Option MarketUpdate)
deriving DecidableEq, Repr

/-- State of the Dispatcher (the main consumer loop): the counters and shared
structures it mutates, plus the observable trace of its calls to Redis.
`cache_log` records each `redisAppendCommand SET` in issue order and
`acks_read` counts the `redisGetReply` calls performed so far. -/
structure DispatchState where
  msg_count : Int
  stats : LatencyStats
  redis_pipeline_count : Nat
  acks_read : Nat
  cache_log : List (String × Rat)
  batch_queue : List MessageBatch
deriving DecidableEq, Repr

/-- Initial dispatcher state at entry to the main loop. -/
def dispatchInit : DispatchState :=
  { msg_count := 0
    stats := statsInit
    redis_pipeline_count := 0
    acks_read := 0
    cache_log := []
    batch_queue := [] }

/-- The pipeline drain: `for (i = 0; i < redis_pipeline_count; i++)
redisGetReply(...); redis_pipeline_count = 0;`. -/
def drainPipeline (s : DispatchState) : DispatchState :=
  { s with
    acks_read := s.acks_read + s.redis_pipeline_count
    redis_pipeline_count := 0 }

/-- One iteration of the Dispatcher's `while (run)` loop, given the wall-clock
`arrival` timestamp read for this iteration and the poll outcome. -/
def dispatch_iter (s : DispatchState) (arrival : Int) (p : Poll) : DispatchState :=
  match p with
  | .timeout =>
      if 0 < s.redis_pipeline_count then drainPipeline s else s
  | .kafkaError => s
  | .record none =>
      { s with msg_count := s.msg_count + 1 }
  | .record (some u) =>
      let lat := clamped_latency_ns arrival u.timestamp_ns
      let s1 : DispatchState :=
        { s with
          msg_count := s.msg_count + 1
          stats := update_latency_stats s.stats lat
          cache_log := s.cache_log ++ [(u.ticker, u.price)]
          redis_pipeline_count := s.redis_pipeline_count + 1 }
      let s2 :=
        if REDIS_PIPELINE_THRESHOLD ≤ s1.redis_pipeline_count then
          drainPipeline s1
        else s1
      { s2 with
        batch_queue :=
          s2.batch_queue ++
            [{ ticker := u.ticker
               price := u.price
               volume := u.volume
               timestamp_ns := u.timestamp_ns
               latency_ms := latency_ms_of lat }] }

/-- A run of the Dispatcher loop over a schedule of (arrival timestamp, poll
outcome) pairs. -/
def dispatch_exec (s : DispatchState) (polls : List (Int × Poll)) : DispatchState :=
  polls.foldl (fun st ap => dispatch_iter st ap.1 ap.2) s

/-- One submitted multi-row INSERT: the batch it carried, in order, and
whether `PQexec` reported `PGRES_COMMAND_OK`. -/
structure Flush where
  rows : List MessageBatch
  ok : Bool
deriving DecidableEq, Repr

/-- The row tuple `(to_timestamp(timestamp_ms/1000.0), ticker, price, volume,
latency_ms)` formatted for one batch element; `timestamp_ms` is the truncating
integer division `msg.timestamp_ns / 1000000`. -/
def insert_row (m : MessageBatch) : Int × String × Rat × Int × Rat :=
  (Int.tdiv m.timestamp_ns 1000000, m.ticker, m.price, m.volume, m.latency_ms)

/-- The VALUES list of the INSERT statement built by the flush loop
`for (size_t i = 0; i < local_batch.size(); i++)`, in loop order. -/
def insert_rows (buf : List MessageBatch) : List (Int × String × Rat × Int × Rat) :=
  buf.map insert_row

/-- State shared between the Batch Writer and (through the queue) the
Dispatcher: the mutex-protected `batch_queue`, the writer-private
`local_batch` buffer and `total_written` counter, and the observable trace of
INSERT submissions. -/
structure WriterState where
  batch_queue : List MessageBatch
  buf : List MessageBatch
  total_written : Int
  flushes : List Flush
deriving DecidableEq, Repr

/-- Writer-side initial state: empty queue, empty local buffer. -/
def writerInit : WriterState :=
  { batch_queue := [], buf := [], total_written := 0, flushes := [] }

/-- The drain loop of `batch_writer`, run under `queue_mutex`:
`while (!batch_queue.empty() && local_batch.size() < BATCH_SIZE)`
move the queue front onto the back of the local buffer.  Returns the new
local buffer and the remaining queue. -/
def drain_loop : List MessageBatch → List MessageBatch →
    List MessageBatch × List MessageBatch
  | [], buf => (buf, [])
  | x :: rest, buf =>
      if buf.length < BATCH_SIZE then drain_loop rest (buf ++ [x])
      else (buf, x :: rest)

/-- `bool should_flush = !local_batch.empty() &&
(local_batch.size() >= BATCH_SIZE || elapsed >= FLUSH_INTERVAL_MS);`. -/
def should_flush (buf : List MessageBatch) (elapsed : Int) : Bool :=
  !buf.isEmpty && (decide (BATCH_SIZE ≤ buf.length) || decide (FLUSH_INTERVAL_MS ≤ elapsed))

/-- One iteration of the Batch Writer's `while (run)` loop, given the elapsed
milliseconds since the last flush (a steady-clock read) and the sink's verdict
on the INSERT should one be submitted.  On a flush the INSERT is recorded,
`total_written` grows only on success, the buffer is cleared either way, and
the failure branch only logs; on no flush the thread merely sleeps. -/
def writer_iter (s : WriterState) (elapsed : Int) (sinkOk : Bool) : WriterState :=
  let d := drain_loop s.batch_queue s.buf
  let buf2 := d.1
  let q2 := d.2
  if should_flush buf2 elapsed then
    { batch_queue := q2
      buf := []
      total_written := s.total_written + (if sinkOk then (buf2.length : Int) else 0)
      flushes := s.flushes ++ [{ rows := buf2, ok := sinkOk }] }
  else
    { s with batch_queue := q2, buf := buf2 }

/-- The code after the Batch Writer's loop exits on shutdown: it prints
`"Flushing N remaining DB writes..."` when the buffer is non-empty and the
`total_written` line, and returns.  No queue drain and no INSERT is performed
there, so the embedded epilogue is the identity on the state. -/
def writer_shutdown (s : WriterState) : WriterState := s

/-- An atomic step on the shared queue state: either the Dispatcher appends
one item under `queue_mutex`, or the Batch Writer runs one loop iteration
(whose queue access is likewise mutex-protected). -/
inductive PipeOp where
  | enq (m : MessageBatch)
  | writer (elapsed : Int) (sinkOk : Bool)
deriving DecidableEq, Repr

/-- Apply one interleaved operation. -/
def pipe_step (s : WriterState) (op : PipeOp) : WriterState :=
  match op with
  | .enq m => { s with batch_queue := s.batch_queue ++ [m] }
  | .writer elapsed sinkOk => writer_iter s elapsed sinkOk

/-- Run an interleaving of Dispatcher enqueues and Batch Writer iterations. -/
def pipe_exec (s : WriterState) (ops : List PipeOp) : WriterState :=
  ops.foldl pipe_step s

/-- The items enqueued by an operation schedule, in insertion order. -/
def enqueued (ops : List PipeOp) : List MessageBatch :=
  ops.filterMap fun op =>
    match op with
    | .enq m => some m
    | .writer _ _ => none

/-- One iteration of `stats_reporter` after its sleep, given the values read
from the four atomic globals and the queue size it would read: when
`processed == 0` the iteration `continue`s and no report is built; otherwise
the report's average is the truncating integer division `total_lat /
processed` scaled by `1e6`. -/
structure StatsReport where
  processed : Int
  queue_size : Nat
  avg_latency_ms : Rat
  min_latency_ms : Rat
  max_latency_ms : Rat
deriving DecidableEq, Repr

/-- The body of one `stats_reporter` loop iteration. -/
def stats_iter (processed total_lat min_lat max_lat : Int) (queue_size : Nat) :
    Option StatsReport :=
  if processed = 0 then none
  else
    some
      { processed := processed
        queue_size := queue_size
        avg_latency_ms := ((Int.tdiv total_lat processed : Int) : Rat) / 1000000
        min_latency_ms := (min_lat : Rat) / 1000000
        max_latency_ms := (max_lat : Rat) / 1000000 }

/-- Local state of one thread executing a `compare_exchange_weak` retry loop
of `update_latency_stats`: `cur` is its local copy of the extremum (`none`
before the initial `load()`), `done` marks loop exit. -/
structure CasThread where
  cur : Option Int
  done : Bool
deriving DecidableEq, Repr

/-- Shared state of one extremum cell and the threads racing on it. -/
structure CasState where
  glob : Int
  threads : List CasThread
deriving DecidableEq, Repr

/-- A scheduler choice for the retry-loop interleaving semantics: thread `i`
performs its initial `load()`, or exits the loop because its value is no
longer more extreme than its local copy, or attempts the
`compare_exchange_weak` (which may fail spuriously when `spurious` is set,
as the weak variant allows). -/
inductive CasChoice where
  | load (i : Nat)
  | leave (i : Nat)
  | cas (i : Nat) (spurious : Bool)
deriving DecidableEq, Repr

/-- One interleaving step of the retry loops, for the extremum whose strict
"more extreme" test is `better` (`a < b` for the minimum cell, `b < a` for
the maximum cell).  Thread `i` updates against its recorded value
`vals[i]`.  A choice whose guard does not hold in the current state is a
stutter.  A failed `compare_exchange_weak` stores the cell's current value
into the thread's local copy, exactly as the C++ call updates its `expected`
argument. -/
def cas_step (better : Int → Int → Bool) (vals : List Int) (s : CasState)
    (c : CasChoice) : CasState :=
  match c with
  | .load i =>
      match s.threads[i]? with
      | some t =>
          if t.done = false ∧ t.cur = none then
            { s with threads := s.threads.set i { cur := some s.glob, done := false } }
          else s
      | none => s
  | .leave i =>
      match vals[i]?, s.threads[i]? with
      | some v, some t =>
          match t.cur with
          | some c0 =>
              if t.done = false ∧ better v c0 = false then
                { s with threads := s.threads.set i { t with done := true } }
              else s
          | none => s
      | _, _ => s
  | .cas i spurious =>
      match vals[i]?, s.threads[i]? with
      | some v, some t =>
          match t.cur with
          | some c0 =>
              if t.done = false ∧ better v c0 = true then
                if s.glob = c0 ∧ spurious = false then
                  { glob := v, threads := s.threads.set i { t with done := true } }
                else
                  { s with threads := s.threads.set i { t with cur := some s.glob } }
              else s
          | none => s
      | _, _ => s

/-- Run a scheduler choice sequence over the retry-loop system. -/
def cas_exec (better : Int → Int → Bool) (vals : List Int) (s : CasState)
    (cs : List CasChoice) : CasState :=
  cs.foldl (cas_step better vals) s

/-- Initial system state: the cell holds `init0` and each of the recorded
values has a thread yet to perform its initial load. -/
def cas_init (init0 : Int) (vals : List Int) : CasState :=
  { glob := init0, threads := vals.map fun _ => { cur := none, done := false } }

/-- All retry loops have terminated. -/
def AllDone (s : CasState) : Prop := ∀ t ∈ s.threads, t.done = true

instance (s : CasState) : Decidable (AllDone s) := by
  unfold AllDone; infer_instance

/-- The "more extreme" test of the `min_latency_ns` retry loop:
`latency_ns < current_min`. -/
def minBetter (a b : Int) : Bool := decide (a < b)

/-- The "more extreme" test of the `max_latency_ns` retry loop:
`latency_ns > current_max`. -/
def maxBetter (a b : Int) : Bool := decide (b < a)

/-- A full concurrent execution of the `min_latency_ns` retry loops for the
recorded values `vals`, under scheduler `cs`, from the global initialiser
`LLONG_MAX`. -/
def min_exec (vals : List Int) (cs : List CasChoice) : CasState :=
  cas_exec minBetter vals (cas_init LLONG_MAX vals) cs

/-- A full concurrent execution of the `max_latency_ns` retry loops for the
recorded values `vals`, under scheduler `cs`, from the global initialiser
`0`. -/
def max_exec (vals : List Int) (cs : List CasChoice) : CasState :=
  cas_exec maxBetter vals (cas_init 0 vals) cs

/-- Number of polls in a schedule whose payload decodes successfully. -/
def countValid (polls : List (Int × Poll)) : Nat :=
  polls.countP fun ap =>
    match ap.2 with
    | .record (some _) => true
    | _ => false

/-- Number of polls in a schedule whose payload fails to decode. -/
def countMalformed (polls : List (Int × Poll)) : Nat :=
  polls.countP fun ap =>
    match ap.2 with
    | .record none => true
    | _ => false

/-- A concrete queue item used in concrete executions. -/
def sampleItem : MessageBatch :=
  { ticker := "AAPL", price := 101, volume := 10, timestamp_ns := 1000000000, latency_ms := 0 }

/-- A second concrete queue item. -/
def sampleItem2 : MessageBatch :=
  { ticker := "GOOG", price := 202, volume := 20, timestamp_ns := 2000000000, latency_ms := 0 }

/-- A concrete decoded market update. -/
def sampleUpdate : MarketUpdate :=
  { ticker := "AAPL", price := 101, volume := 10, timestamp_ns := 3 }

/-- All items that ever passed through the shared queue state, in order:
first the rows of the submitted INSERTs (oldest flush first, each batch in
submission order), then the writer's local buffer front-to-back, then the
queue front-to-back. -/
def pipe_items (s : WriterState) : List MessageBatch :=
  (s.flushes.map Flush.rows).flatten ++ s.buf ++ s.batch_queue

/-! ## Theorems -/

theorem should_flush_iff (buf : List MessageBatch) (elapsed : Int) :
    should_flush buf elapsed = true ↔
      buf ≠ [] ∧ (BATCH_SIZE ≤ buf.length ∨ FLUSH_INTERVAL_MS ≤ elapsed) := by
  simp [should_flush]

theorem drain_loop_append (q buf : List MessageBatch) :
    (drain_loop q buf).1 ++ (drain_loop q buf).2 = buf ++ q := by
  induction q generalizing buf with
  | nil => simp [drain_loop]
  | cons x rest ih =>
      unfold drain_loop
      split
      · rw [ih]; simp
      · simp

theorem drain_loop_length_le (q buf : List MessageBatch) (h : buf.length ≤ BATCH_SIZE) :
    (drain_loop q buf).1.length ≤ BATCH_SIZE := by
  induction q generalizing buf with
  | nil => simpa [drain_loop] using h
  | cons x rest ih =>
      unfold drain_loop
      split
      · rename_i hlt
        exact ih _ (by simp only [List.length_append, List.length_cons, List.length_nil]; omega)
      · simpa using h

theorem pipe_exec_inv (P : WriterState → Prop)
    (hstep : ∀ s op, P s → P (pipe_step s op)) :
    ∀ (ops : List PipeOp) (s : WriterState), P s → P (pipe_exec s ops) := by
  intro ops
  induction ops with
  | nil => intro s hs; exact hs
  | cons op rest ih => intro s hs; exact ih _ (hstep s op hs)

/-- Claim C10: the Batch Writer's local buffer never exceeds `BATCH_SIZE`
items, and every INSERT submitted during any interleaving of Dispatcher
enqueues and Writer iterations carries between 1 and `BATCH_SIZE` rows. -/
theorem batch_size_bound (ops : List PipeOp) :
    (pipe_exec writerInit ops).buf.length ≤ BATCH_SIZE ∧
    ∀ f ∈ (pipe_exec writerInit ops).flushes,
      1 ≤ f.rows.length ∧ f.rows.length ≤ BATCH_SIZE := by
  refine pipe_exec_inv
    (fun s => s.buf.length ≤ BATCH_SIZE ∧
      ∀ f ∈ s.flushes, 1 ≤ f.rows.length ∧ f.rows.length ≤ BATCH_SIZE)
    ?_ ops writerInit ⟨by simp [writerInit], by simp [writerInit]⟩
  intro s op h
  obtain ⟨h1, h2⟩ := h
  cases op with
  | enq m => exact ⟨h1, h2⟩
  | writer elapsed sinkOk =>
      have hb2 : (drain_loop s.batch_queue s.buf).1.length ≤ BATCH_SIZE :=
        drain_loop_length_le _ _ h1
      show (writer_iter s elapsed sinkOk).buf.length ≤ BATCH_SIZE ∧
        ∀ f ∈ (writer_iter s elapsed sinkOk).flushes,
          1 ≤ f.rows.length ∧ f.rows.length ≤ BATCH_SIZE
      by_cases hfl : should_flush (drain_loop s.batch_queue s.buf).1 elapsed = true
      · have hpos : (drain_loop s.batch_queue s.buf).1 ≠ [] :=
          ((should_flush_iff _ _).mp hfl).1
        simp only [writer_iter, hfl, if_true]
        refine ⟨by simp, ?_⟩
        intro f hf
        simp only [List.mem_append, List.mem_singleton] at hf
        rcases hf with hf | hf
        · exact h2 f hf
        · subst hf
          exact ⟨by simpa [Nat.succ_le_iff, List.length_pos] using hpos, hb2⟩
      · have hfl2 : should_flush (drain_loop s.batch_queue s.buf).1 elapsed = false := by
          simpa using hfl
        simp only [writer_iter, hfl2, Bool.false_eq_true, if_false]
        exact ⟨hb2, h2⟩

theorem pipe_step_items (s : WriterState) (op : PipeOp) :
    pipe_items (pipe_step s op) =
      pipe_items s ++
        (match op with
         | .enq m => [m]
         | .writer _ _ => []) := by
  cases op with
  | enq m => simp [pipe_items, pipe_step]
  | writer elapsed sinkOk =>
      have hd : (drain_loop s.batch_queue s.buf).1 ++ (drain_loop s.batch_queue s.buf).2 =
          s.buf ++ s.batch_queue := drain_loop_append _ _
      show pipe_items (writer_iter s elapsed sinkOk) = pipe_items s ++ []
      by_cases hfl : should_flush (drain_loop s.batch_queue s.buf).1 elapsed = true
      · simp only [pipe_items, writer_iter, hfl, if_true]
        simp [List.append_assoc, hd]
      · have hfl2 : should_flush (drain_loop s.batch_queue s.buf).1 elapsed = false := by
          simpa using hfl
        simp only [pipe_items, writer_iter, hfl2, Bool.false_eq_true, if_false]
        simp [List.append_assoc, hd]

theorem pipe_exec_items (ops : List PipeOp) :
    ∀ s : WriterState, pipe_items (pipe_exec s ops) = pipe_items s ++ enqueued ops := by
  induction ops with
  | nil => intro s; simp [pipe_exec, enqueued]
  | cons op rest ih =>
      intro s
      have h1 : pipe_exec s (op :: rest) = pipe_exec (pipe_step s op) rest := rfl
      rw [h1, ih, pipe_step_items]
      cases op with
      | enq m => simp [enqueued, List.filterMap_cons]
      | writer elapsed sinkOk => simp [enqueued, List.filterMap_cons]

/-- Claim C6: the Durable Queue is strict FIFO under every interleaving of
Dispatcher enqueues and Batch Writer iterations: the rows of the submitted
INSERTs (in submission order), followed by the writer's buffer and the
remaining queue, are exactly the enqueued items in insertion order — items
are removed in insertion order and every flush submits its rows in that
order (`insert_rows` is an order-preserving `map`). -/
theorem fifo_order (ops : List PipeOp) :
    pipe_items (pipe_exec writerInit ops) = enqueued ops ∧
    ∀ f ∈ (pipe_exec writerInit ops).flushes, insert_rows f.rows = f.rows.map insert_row := by
  refine ⟨?_, fun f _ => rfl⟩
  rw [pipe_exec_items ops writerInit]
  simp [pipe_items, writerInit]

/-- Claim C8: when a flush is submitted, the local buffer is cleared and the
queue is left exactly as the drain left it — whether the sink accepts or
rejects the INSERT.  On failure the attempt is recorded (logged) with
`ok = false`, `total_written` does not grow, the discarded rows re-enter
neither the buffer nor the queue, and `writer_iter` is a total function into
`WriterState` — no error escapes the iteration. -/
theorem flush_failure_discards (s : WriterState) (elapsed : Int)
    (h : should_flush (drain_loop s.batch_queue s.buf).1 elapsed = true) :
    ∀ sinkOk : Bool,
      (writer_iter s elapsed sinkOk).buf = [] ∧
      (writer_iter s elapsed sinkOk).batch_queue = (drain_loop s.batch_queue s.buf).2 ∧
      (writer_iter s elapsed sinkOk).flushes =
        s.flushes ++ [{ rows := (drain_loop s.batch_queue s.buf).1, ok := sinkOk }] ∧
      (writer_iter s elapsed false).total_written = s.total_written := by
  intro sinkOk
  simp only [writer_iter, h, if_true]
  simp

/-- Witness for `flush_failure_discards` at a concrete failed flush. -/
theorem flush_failure_discards_witness :
    (writer_iter { batch_queue := [sampleItem], buf := [], total_written := 0, flushes := [] }
        100 false).buf = [] ∧
    (writer_iter { batch_queue := [sampleItem], buf := [], total_written := 0, flushes := [] }
        100 false).batch_queue = (drain_loop [sampleItem] []).2 ∧
    (writer_iter { batch_queue := [sampleItem], buf := [], total_written := 0, flushes := [] }
        100 false).flushes = [] ++ [{ rows := (drain_loop [sampleItem] []).1, ok := false }] ∧
    (writer_iter { batch_queue := [sampleItem], buf := [], total_written := 0, flushes := [] }
        100 false).total_written = 0 :=
  flush_failure_discards
    { batch_queue := [sampleItem], buf := [], total_written := 0, flushes := [] }
    100 (by decide) false

/-- Claim C1 (code bug): after the shutdown signal, the Batch Writer's
epilogue only prints and exits — it performs no final flush.  Concretely: one
item was drained into the local buffer (no flush condition met), a second
item was enqueued, then `run` was observed false; at exit the buffer still
holds the first item, the queue still holds the second, and the flush trace
is empty — neither item was included in any flush attempt, although the
epilogue prints `"Flushing 1 remaining DB writes..."`. -/
theorem shutdown_final_flush_missing :
    writer_shutdown (pipe_exec writerInit
        [PipeOp.enq sampleItem, PipeOp.writer 0 true, PipeOp.enq sampleItem2]) =
      { batch_queue := [sampleItem2], buf := [sampleItem], total_written := 0,
        flushes := [] } := by
  decide

/-- Claim C5: for every successfully decoded event, the computed latency is
`max 0 (arrival - produce)`, hence non-negative; the `BatchItem` pushed onto
the durable queue stores that latency in milliseconds (non-negative), and the
value fed to the latency recorder is the same clamped latency. -/
theorem latency_clamped_nonneg (s : DispatchState) (arrival : Int) (u : MarketUpdate) :
    clamped_latency_ns arrival u.timestamp_ns = max 0 (arrival - u.timestamp_ns) ∧
    0 ≤ clamped_latency_ns arrival u.timestamp_ns ∧
    ∃ item : MessageBatch,
      (dispatch_iter s arrival (Poll.record (some u))).batch_queue = s.batch_queue ++ [item] ∧
      item.latency_ms = latency_ms_of (clamped_latency_ns arrival u.timestamp_ns) ∧
      0 ≤ item.latency_ms ∧
      (dispatch_iter s arrival (Poll.record (some u))).stats =
        update_latency_stats s.stats (clamped_latency_ns arrival u.timestamp_ns) := by
  have hclamp : clamped_latency_ns arrival u.timestamp_ns = max 0 (arrival - u.timestamp_ns) := by
    unfold clamped_latency_ns; split <;> omega
  have hnonneg : 0 ≤ clamped_latency_ns arrival u.timestamp_ns := by
    unfold clamped_latency_ns; split <;> omega
  refine ⟨hclamp, hnonneg, ?_⟩
  refine ⟨{ ticker := u.ticker, price := u.price, volume := u.volume,
            timestamp_ns := u.timestamp_ns,
            latency_ms := latency_ms_of (clamped_latency_ns arrival u.timestamp_ns) }, ?_, rfl, ?_, ?_⟩
  · simp only [dispatch_iter]
    split <;> simp [drainPipeline]
  · unfold latency_ms_of
    have : (0 : Rat) ≤ (clamped_latency_ns arrival u.timestamp_ns : Rat) := by
      exact_mod_cast hnonneg
    positivity
  · simp only [dispatch_iter]
    split <;> simp [drainPipeline]

/-- Claim C9: one `stats_reporter` iteration builds no report when the
processed count read from the atomics is zero (the iteration `continue`s
before any division), and otherwise builds the report whose average is the
integer quotient `total / processed` scaled to milliseconds — the divisor is
non-zero in every division the reporter performs. -/
theorem stats_reporter_skips_zero (processed total_lat min_lat max_lat : Int) (qs : Nat) :
    (stats_iter processed total_lat min_lat max_lat qs = none ↔ processed = 0) ∧
    (processed ≠ 0 →
      stats_iter processed total_lat min_lat max_lat qs =
        some
          { processed := processed
            queue_size := qs
            avg_latency_ms := ((Int.tdiv total_lat processed : Int) : Rat) / 1000000
            min_latency_ms := (min_lat : Rat) / 1000000
            max_latency_ms := (max_lat : Rat) / 1000000 }) := by
  unfold stats_iter
  constructor
  · split <;> simp_all
  · intro h
    simp [h]

/-- Witness for `stats_reporter_skips_zero` at a concrete non-zero count. -/
theorem stats_reporter_skips_zero_witness :
    stats_iter 2 10 1 3 7 =
      some
        { processed := 2
          queue_size := 7
          avg_latency_ms := ((Int.tdiv 10 2 : Int) : Rat) / 1000000
          min_latency_ms := ((1 : Int) : Rat) / 1000000
          max_latency_ms := ((3 : Int) : Rat) / 1000000 } :=
  (stats_reporter_skips_zero 2 10 1 3 7).2 (by decide)

/-- Counterexample to claim C2 as stated: in a Batch Writer iteration whose
drained buffer is empty, the time condition alone (`elapsed = 100 ≥
FLUSH_INTERVAL_MS`) does not produce a flush — the code additionally requires
`!local_batch.empty()`. -/
theorem flush_trigger_counterexample :
    FLUSH_INTERVAL_MS ≤ 100 ∧
    (writer_iter writerInit 100 true).flushes = [] ∧
    (writer_iter writerInit 100 true).buf = [] := by decide

/-- Claim C2 (amended): in every Batch Writer loop iteration, a flush to the
relational sink occurs if and only if the drained buffer is non-empty AND
(its size is at least `BATCH_SIZE` or the elapsed time since the previous
flush is at least `FLUSH_INTERVAL_MS`); in particular no flush occurs one
item or one millisecond short of a threshold. -/
theorem flush_trigger_iff (s : WriterState) (elapsed : Int) (sinkOk : Bool) :
    ((writer_iter s elapsed sinkOk).flushes =
        s.flushes ++ [{ rows := (drain_loop s.batch_queue s.buf).1, ok := sinkOk }] ↔
      (drain_loop s.batch_queue s.buf).1 ≠ [] ∧
        (BATCH_SIZE ≤ (drain_loop s.batch_queue s.buf).1.length ∨
          FLUSH_INTERVAL_MS ≤ elapsed)) ∧
    ((writer_iter s elapsed sinkOk).flushes = s.flushes ↔
      ¬((drain_loop s.batch_queue s.buf).1 ≠ [] ∧
        (BATCH_SIZE ≤ (drain_loop s.batch_queue s.buf).1.length ∨
          FLUSH_INTERVAL_MS ≤ elapsed))) := by
  have hne : s.flushes ≠
      s.flushes ++ [{ rows := (drain_loop s.batch_queue s.buf).1, ok := sinkOk }] := by
    intro h
    have := congrArg List.length h
    simp at this
  by_cases hc : (drain_loop s.batch_queue s.buf).1 ≠ [] ∧
      (BATCH_SIZE ≤ (drain_loop s.batch_queue s.buf).1.length ∨
        FLUSH_INTERVAL_MS ≤ elapsed)
  · have hb : should_flush (drain_loop s.batch_queue s.buf).1 elapsed = true :=
      (should_flush_iff _ _).mpr hc
    simp only [writer_iter, hb, if_true]
    exact ⟨⟨fun _ => hc, fun _ => trivial⟩, ⟨fun h => absurd h.symm hne, fun hn => absurd hc hn⟩⟩
  · have hb : should_flush (drain_loop s.batch_queue s.buf).1 elapsed = false := by
      rcases Bool.eq_false_or_eq_true (should_flush (drain_loop s.batch_queue s.buf).1 elapsed)
        with h | h
      · exact absurd ((should_flush_iff _ _).mp h) hc
      · exact h
    simp only [writer_iter, hb, Bool.false_eq_true, if_false]
    exact ⟨⟨fun h => absurd h hne, fun h => absurd h hc⟩, ⟨fun _ => hc, fun _ => trivial⟩⟩

/-- Counterexample to claim C3 as stated: the program maintains no distinct
parse-error counter.  After one malformed payload from the initial state the
only variable that changed is `msg_count` — the queue, the cache pipeline and
all four latency atomics (including `total_processed`) are untouched — and
`msg_count` is not a *distinct* parse-error counter, because a valid payload
increments it as well (so after N=1 valid, M=0 malformed it reads 1, not 0). -/
theorem no_parse_error_counter :
    dispatch_iter dispatchInit 5 (Poll.record none) =
      { dispatchInit with msg_count := 1 } ∧
    (dispatch_iter dispatchInit 5 (Poll.record (some sampleUpdate))).msg_count = 1 := by
  constructor
  · decide
  · decide

/-- Claim C3 (amended): a record whose payload fails to decode is dropped —
not enqueued on the Durable Queue, no cache write is submitted, and the
processed count is not incremented — so after N valid and M malformed
payloads `total_processed = N`; but the only counter incremented on a
malformed payload is the overall message counter `msg_count`, which counts
valid records too (`msg_count = N + M`): there is no distinct parse-error
counter, parse errors are only derivable as `msg_count - total_processed`. -/
theorem malformed_records_dropped (polls : List (Int × Poll)) :
    ∀ s : DispatchState,
      (dispatch_exec s polls).stats.total_processed =
        s.stats.total_processed + (countValid polls : Int) ∧
      (dispatch_exec s polls).msg_count =
        s.msg_count + (countValid polls : Int) + (countMalformed polls : Int) ∧
      (dispatch_exec s polls).batch_queue.length =
        s.batch_queue.length + countValid polls ∧
      (dispatch_exec s polls).cache_log.length =
        s.cache_log.length + countValid polls := by
  induction polls with
  | nil =>
      intro s
      simp [dispatch_exec, countValid, countMalformed]
  | cons ap rest ih =>
      intro s
      obtain ⟨arr, p⟩ := ap
      have hexec : dispatch_exec s ((arr, p) :: rest) =
          dispatch_exec (dispatch_iter s arr p) rest := rfl
      obtain ⟨ih1, ih2, ih3, ih4⟩ := ih (dispatch_iter s arr p)
      cases p with
      | timeout =>
          have e : (dispatch_iter s arr Poll.timeout).stats.total_processed =
                s.stats.total_processed ∧
              (dispatch_iter s arr Poll.timeout).msg_count = s.msg_count ∧
              (dispatch_iter s arr Poll.timeout).batch_queue.length =
                s.batch_queue.length ∧
              (dispatch_iter s arr Poll.timeout).cache_log.length = s.cache_log.length := by
            simp only [dispatch_iter]
            split <;> simp [drainPipeline]
          obtain ⟨e1, e2, e3, e4⟩ := e
          have hv : countValid ((arr, Poll.timeout) :: rest) = countValid rest := by
            simp [countValid, List.countP_cons]
          have hm : countMalformed ((arr, Poll.timeout) :: rest) = countMalformed rest := by
            simp [countMalformed, List.countP_cons]
          rw [hexec]
          exact ⟨by rw [ih1, e1, hv], by rw [ih2, e2, hv, hm], by rw [ih3, e3, hv],
            by rw [ih4, e4, hv]⟩
      | kafkaError =>
          have hv : countValid ((arr, Poll.kafkaError) :: rest) = countValid rest := by
            simp [countValid, List.countP_cons]
          have hm : countMalformed ((arr, Poll.kafkaError) :: rest) = countMalformed rest := by
            simp [countMalformed, List.countP_cons]
          have ei : dispatch_iter s arr Poll.kafkaError = s := rfl
          rw [hexec, ei, hv, hm]
          exact ih s
      | record d =>
          cases d with
          | none =>
              have e1 : (dispatch_iter s arr (Poll.record none)).stats.total_processed =
                  s.stats.total_processed := rfl
              have e2 : (dispatch_iter s arr (Poll.record none)).msg_count =
                  s.msg_count + 1 := rfl
              have e3 : (dispatch_iter s arr (Poll.record none)).batch_queue.length =
                  s.batch_queue.length := rfl
              have e4 : (dispatch_iter s arr (Poll.record none)).cache_log.length =
                  s.cache_log.length := rfl
              have hv : countValid ((arr, Poll.record none) :: rest) = countValid rest := by
                simp [countValid, List.countP_cons]
              have hm : countMalformed ((arr, Poll.record none) :: rest) =
                  countMalformed rest + 1 := by
                simp [countMalformed, List.countP_cons]
              rw [hexec]
              refine ⟨by rw [ih1, e1, hv], ?_, by rw [ih3, e3, hv], by rw [ih4, e4, hv]⟩
              rw [ih2, e2, hv, hm]
              push_cast
              ring
          | some u =>
              have e : (dispatch_iter s arr (Poll.record (some u))).stats.total_processed =
                    s.stats.total_processed + 1 ∧
                  (dispatch_iter s arr (Poll.record (some u))).msg_count = s.msg_count + 1 ∧
                  (dispatch_iter s arr (Poll.record (some u))).batch_queue.length =
                    s.batch_queue.length + 1 ∧
                  (dispatch_iter s arr (Poll.record (some u))).cache_log.length =
                    s.cache_log.length + 1 := by
                simp only [dispatch_iter]
                split <;> simp [drainPipeline, update_latency_stats]
              obtain ⟨e1, e2, e3, e4⟩ := e
              have hv : countValid ((arr, Poll.record (some u)) :: rest) =
                  countValid rest + 1 := by
                simp [countValid, List.countP_cons]
              have hm : countMalformed ((arr, Poll.record (some u)) :: rest) =
                  countMalformed rest := by
                simp [countMalformed, List.countP_cons]
              rw [hexec]
              refine ⟨?_, ?_, ?_, ?_⟩
              · rw [ih1, e1, hv]; push_cast; ring
              · rw [ih2, e2, hv, hm]; push_cast; ring
              · rw [ih3, e3, hv]; omega
              · rw [ih4, e4, hv]; omega

theorem dispatch_exec_inv (P : DispatchState → Prop)
    (hstep : ∀ s arrival p, P s → P (dispatch_iter s arrival p)) :
    ∀ (polls : List (Int × Poll)) (s : DispatchState), P s → P (dispatch_exec s polls) := by
  intro polls
  induction polls with
  | nil => intro s hs; exact hs
  | cons ap rest ih => intro s hs; exact ih _ (hstep s ap.1 ap.2 hs)

theorem dispatch_iter_count_lt (s : DispatchState) (arrival : Int) (p : Poll)
    (h : s.redis_pipeline_count < REDIS_PIPELINE_THRESHOLD) :
    (dispatch_iter s arrival p).redis_pipeline_count < REDIS_PIPELINE_THRESHOLD := by
  cases p with
  | timeout =>
      simp only [dispatch_iter]
      split
      · simp [drainPipeline, REDIS_PIPELINE_THRESHOLD]
      · exact h
  | kafkaError => exact h
  | record d =>
      cases d with
      | none => exact h
      | some u =>
          simp only [dispatch_iter]
          split

          · simp [drainPipeline, REDIS_PIPELINE_THRESHOLD]
          · rename_i hp
            simp only [not_le] at hp
            simpa using hp

/-- Claim C7: the Redis pipeline's outstanding-command count stays below the
threshold 100 at every loop boundary (so it never exceeds 100 — the transient
value checked against the threshold is at most `count + 1 ≤ 100`); a publish
that brings the count to 100 drains all 100 outstanding acknowledgements and
resets the count to 0; and an idle poll with a non-zero outstanding count
drains exactly the outstanding acknowledgements and resets the count to 0. -/
theorem redis_pipeline_bound (polls : List (Int × Poll)) :
    (dispatch_exec dispatchInit polls).redis_pipeline_count < REDIS_PIPELINE_THRESHOLD ∧
    (∀ (s : DispatchState) (arrival : Int) (u : MarketUpdate),
      s.redis_pipeline_count + 1 = REDIS_PIPELINE_THRESHOLD →
        (dispatch_iter s arrival (Poll.record (some u))).redis_pipeline_count = 0 ∧
        (dispatch_iter s arrival (Poll.record (some u))).acks_read =
          s.acks_read + REDIS_PIPELINE_THRESHOLD) ∧
    (∀ (s : DispatchState) (arrival : Int), 0 < s.redis_pipeline_count →
      (dispatch_iter s arrival Poll.timeout).redis_pipeline_count = 0 ∧
      (dispatch_iter s arrival Poll.timeout).acks_read =
        s.acks_read + s.redis_pipeline_count) := by
  refine ⟨?_, ?_, ?_⟩
  · exact dispatch_exec_inv (fun s => s.redis_pipeline_count < REDIS_PIPELINE_THRESHOLD)
      dispatch_iter_count_lt polls dispatchInit (by decide)
  · intro s arrival u h
    have hcond : REDIS_PIPELINE_THRESHOLD ≤ s.redis_pipeline_count + 1 := by omega
    simp only [dispatch_iter, hcond, if_true, drainPipeline]
    exact ⟨by simp, by omega⟩
  · intro s arrival h
    simp only [dispatch_iter, h, if_true, drainPipeline]
    exact ⟨by simp, by simp⟩

/-- Witness for `redis_pipeline_bound`: a publish from count 99 drains and
resets, and an idle poll from count 7 drains and resets. -/
theorem redis_pipeline_bound_witness :
    ((dispatch_iter { dispatchInit with redis_pipeline_count := 99 } 5
        (Poll.record (some sampleUpdate))).redis_pipeline_count = 0 ∧
      (dispatch_iter { dispatchInit with redis_pipeline_count := 99 } 5
          (Poll.record (some sampleUpdate))).acks_read =
        dispatchInit.acks_read + REDIS_PIPELINE_THRESHOLD) ∧
    ((dispatch_iter { dispatchInit with redis_pipeline_count := 7 } 5
        Poll.timeout).redis_pipeline_count = 0 ∧
      (dispatch_iter { dispatchInit with redis_pipeline_count := 7 } 5
          Poll.timeout).acks_read = dispatchInit.acks_read + 7) :=
  ⟨(redis_pipeline_bound []).2.1 { dispatchInit with redis_pipeline_count := 99 } 5
      sampleUpdate (by decide),
    (redis_pipeline_bound []).2.2 { dispatchInit with redis_pipeline_count := 7 } 5
      (by decide)⟩

/-- Inductive invariant of the retry-loop system, parameterised by the
"at least as extreme" preorder `R` (for the minimum cell `R a b` is `a ≤ b`,
for the maximum cell it is `b ≤ a`):
the cell is at least as extreme as its initialiser, it holds the initialiser
or one of the recorded values, it is at least as extreme as every local copy
held by a thread, and at least as extreme as the value of every finished
thread. -/
structure CasInv (R : Int → Int → Prop) (init0 : Int) (vals : List Int)
    (s : CasState) : Prop where
  len : s.threads.length = vals.length
  globInit : R s.glob init0
  globMem : s.glob = init0 ∨ s.glob ∈ vals
  globCur : ∀ (i : Nat) (t : CasThread) (c0 : Int),
    s.threads[i]? = some t → t.cur = some c0 → R s.glob c0
  globDone : ∀ (i : Nat) (v : Int) (t : CasThread),
    vals[i]? = some v → s.threads[i]? = some t → t.done = true → R s.glob v

theorem casInv_step {R : Int → Int → Prop} {better : Int → Int → Bool}
    (hrefl : ∀ a, R a a)
    (htrans : ∀ a b c, R a b → R b c → R a c)
    (hb : ∀ a b, better a b = true → R a b)
    {init0 : Int} {vals : List Int} {s : CasState}
    (hnb : ∀ a b, better a b = false → R b a)
    (h : CasInv R init0 vals s) (c : CasChoice) :
    CasInv R init0 vals (cas_step better vals s c) := by
  cases c with
  | load i =>
      cases hti : s.threads[i]? with
      | none => simpa only [cas_step, hti] using h
      | some t =>
          simp only [cas_step, hti]
          split
          · refine ⟨?_, h.globInit, h.globMem, ?_, ?_⟩
            · rw [List.length_set]; exact h.len
            · intro j t' c0 hj hc0
              rw [List.getElem?_set] at hj
              by_cases hij : i = j
              · simp only [hij, if_true] at hj
                split at hj
                · cases hj
                  cases hc0
                  exact hrefl s.glob
                · cases hj
              · simp only [hij, if_false] at hj
                exact h.globCur j t' c0 hj hc0
            · intro j v t' hv hj hd
              rw [List.getElem?_set] at hj
              by_cases hij : i = j
              · simp only [hij, if_true] at hj
                split at hj
                · cases hj
                  cases hd
                · cases hj
              · simp only [hij, if_false] at hj
                exact h.globDone j v t' hv hj hd
          · exact h
  | leave i =>
      cases hvi : vals[i]? with
      | none => simpa only [cas_step, hvi] using h
      | some v =>
          cases hti : s.threads[i]? with
          | none => simpa only [cas_step, hvi, hti] using h
          | some t =>
              cases hcur : t.cur with
              | none => simpa only [cas_step, hvi, hti, hcur] using h
              | some c0 =>
                  simp only [cas_step, hvi, hti, hcur]
                  split
                  · rename_i hcond
                    refine ⟨?_, h.globInit, h.globMem, ?_, ?_⟩
                    · rw [List.length_set]; exact h.len
                    · intro j t' c0' hj hc0
                      rw [List.getElem?_set] at hj
                      by_cases hij : i = j
                      · simp only [hij, if_true] at hj
                        split at hj
                        · cases hj
                          cases hc0
                          exact h.globCur j t c0 (hij ▸ hti) hcur
                        · cases hj
                      · simp only [hij, if_false] at hj
                        exact h.globCur j t' c0' hj hc0
                    · intro j v' t' hv hj hd
                      rw [List.getElem?_set] at hj
                      by_cases hij : i = j
                      · simp only [hij, if_true] at hj
                        split at hj
                        · cases hj
                          rw [← hij] at hv
                          rw [hvi] at hv
                          have hvv : v' = v := (Option.some.inj hv).symm
                          rw [hvv]
                          exact htrans s.glob c0 v
                            (h.globCur i t c0 hti hcur) (hnb v c0 hcond.2)
                        · cases hj
                      · simp only [hij, if_false] at hj
                        exact h.globDone j v' t' hv hj hd
                  · exact h
  | cas i spurious =>
      cases hvi : vals[i]? with
      | none => simpa only [cas_step, hvi] using h
      | some v =>
          cases hti : s.threads[i]? with
          | none => simpa only [cas_step, hvi, hti] using h
          | some t =>
              cases hcur : t.cur with
              | none => simpa only [cas_step, hvi, hti, hcur] using h
              | some c0 =>
                  simp only [cas_step, hvi, hti, hcur]
                  split
                  · rename_i hcond
                    have hvR : R v c0 := hb v c0 hcond.2
                    have hgc0 : R s.glob c0 := h.globCur i t c0 hti hcur
                    split
                    · rename_i hcas
                      have hgv : R v s.glob := by
                        rw [hcas.1]; exact hvR
                      refine ⟨?_, htrans v s.glob init0 hgv h.globInit, ?_, ?_, ?_⟩
                      · rw [List.length_set]; exact h.len
                      · exact Or.inr (List.mem_iff_getElem?.mpr ⟨i, hvi⟩)
                      · intro j t' c0' hj hc0
                        rw [List.getElem?_set] at hj
                        by_cases hij : i = j
                        · simp only [hij, if_true] at hj
                          split at hj
                          · cases hj
                            cases hc0
                            exact hvR
                          · cases hj
                        · simp only [hij, if_false] at hj
                          exact htrans v s.glob c0' hgv (h.globCur j t' c0' hj hc0)
                      · intro j v' t' hv hj hd
                        rw [List.getElem?_set] at hj
                        by_cases hij : i = j
                        · simp only [hij, if_true] at hj
                          split at hj
                          · cases hj
                            rw [← hij] at hv
                            rw [hvi] at hv
                            have hvv : v' = v := (Option.some.inj hv).symm
                            rw [hvv]
                            exact hrefl v
                          · cases hj
                        · simp only [hij, if_false] at hj
                          exact htrans v s.glob v' hgv (h.globDone j v' t' hv hj hd)
                    · refine ⟨?_, h.globInit, h.globMem, ?_, ?_⟩
                      · rw [List.length_set]; exact h.len
                      · intro j t' c0' hj hc0
                        rw [List.getElem?_set] at hj
                        by_cases hij : i = j
                        · simp only [hij, if_true] at hj
                          split at hj
                          · cases hj
                            cases hc0
                            exact hrefl s.glob
                          · cases hj
                        · simp only [hij, if_false] at hj
                          exact h.globCur j t' c0' hj hc0
                      · intro j v' t' hv hj hd
                        rw [List.getElem?_set] at hj
                        by_cases hij : i = j
                        · simp only [hij, if_true] at hj
                          split at hj
                          · rename_i hcond2
                            cases hj
                            exact absurd hd (by simp [hcond.1])
                          · cases hj
                        · simp only [hij, if_false] at hj
                          exact h.globDone j v' t' hv hj hd
                  · exact h

theorem casInv_init {R : Int → Int → Prop} (hrefl : ∀ a, R a a) (init0 : Int)
    (vals : List Int) : CasInv R init0 vals (cas_init init0 vals) := by
  refine ⟨by simp [cas_init], hrefl init0, Or.inl rfl, ?_, ?_⟩
  · intro i t c0 hti hc0
    simp only [cas_init, List.getElem?_map] at hti
    cases hv : vals[i]? with
    | none => rw [hv] at hti; cases hti
    | some v =>
        rw [hv] at hti
        cases hti
        cases hc0
  · intro i v t hv hti hd
    simp only [cas_init, List.getElem?_map] at hti
    rw [hv] at hti
    cases hti
    cases hd

theorem casInv_exec {R : Int → Int → Prop} {better : Int → Int → Bool}
    (hrefl : ∀ a, R a a)
    (htrans : ∀ a b c, R a b → R b c → R a c)
    (hb : ∀ a b, better a b = true → R a b)
    (hnb : ∀ a b, better a b = false → R b a)
    {init0 : Int} {vals : List Int} :
    ∀ (cs : List CasChoice) (s : CasState), CasInv R init0 vals s →
      CasInv R init0 vals (cas_exec better vals s cs) := by
  intro cs
  induction cs with
  | nil => intro s hs; exact hs
  | cons c rest ih => intro s hs; exact ih _ (casInv_step hrefl htrans hb hnb hs c)

theorem casInv_allDone {R : Int → Int → Prop} {init0 : Int} {vals : List Int}
    {s : CasState} (h : CasInv R init0 vals s) (hd : AllDone s) :
    ∀ v ∈ vals, R s.glob v := by
  intro v hv
  obtain ⟨i, hvi⟩ := List.mem_iff_getElem?.mp hv
  have hilen : i < vals.length := (List.getElem?_eq_some.mp hvi).1
  have hit : i < s.threads.length := by rw [h.len]; exact hilen
  have hti : s.threads[i]? = some (s.threads.get ⟨i, hit⟩) := List.getElem?_eq_getElem hit
  have hmem : s.threads.get ⟨i, hit⟩ ∈ s.threads := List.get_mem s.threads i hit
  exact h.globDone i v _ hvi hti (hd _ hmem)

/-- Claim C4: under every interleaving of concurrent
`compare_exchange_weak` retry loops (including spurious weak failures) that
records the latencies `vals`, once all loops have terminated the
`min_latency_ns` cell holds exactly the minimum and the `max_latency_ns` cell
holds exactly the maximum of the recorded values — the retry loop loses no
update.  The hypotheses `0 ≤ v` and `v ≤ LLONG_MAX` hold for every latency
the program records (clamped, 64-bit). -/
theorem latency_extrema_no_lost_updates (vals : List Int) (csMin csMax : List CasChoice)
    (hne : vals ≠ [])
    (hlo : ∀ v ∈ vals, 0 ≤ v)
    (hhi : ∀ v ∈ vals, v ≤ LLONG_MAX)
    (hdmin : AllDone (min_exec vals csMin))
    (hdmax : AllDone (max_exec vals csMax)) :
    ((min_exec vals csMin).glob ∈ vals ∧
      ∀ v ∈ vals, (min_exec vals csMin).glob ≤ v) ∧
    ((max_exec vals csMax).glob ∈ vals ∧
      ∀ v ∈ vals, v ≤ (max_exec vals csMax).glob) := by
  have hinvMin : CasInv (fun a b => a ≤ b) LLONG_MAX vals (min_exec vals csMin) :=
    @casInv_exec (fun a b => a ≤ b) minBetter (fun a => le_refl a)
      (fun a b c hab hbc => le_trans hab hbc)
      (fun a b hab => le_of_lt (by simpa [minBetter] using hab))
      (fun a b hab => by simpa [minBetter] using hab)
      LLONG_MAX vals csMin _ (@casInv_init (fun a b => a ≤ b) (fun a => le_refl a) LLONG_MAX vals)
  have hinvMax : CasInv (fun a b => b ≤ a) 0 vals (max_exec vals csMax) :=
    @casInv_exec (fun a b => b ≤ a) maxBetter (fun a => le_refl a)
      (fun a b c hab hbc => le_trans hbc hab)
      (fun a b hab => le_of_lt (by simpa [maxBetter] using hab))
      (fun a b hab => by simpa [maxBetter] using hab)
      0 vals csMax _ (@casInv_init (fun a b => b ≤ a) (fun a => le_refl a) 0 vals)
  have hminLe : ∀ v ∈ vals, (min_exec vals csMin).glob ≤ v :=
    casInv_allDone hinvMin hdmin
  have hmaxGe : ∀ v ∈ vals, v ≤ (max_exec vals csMax).glob :=
    casInv_allDone hinvMax hdmax
  refine ⟨⟨?_, hminLe⟩, ⟨?_, hmaxGe⟩⟩
  · rcases hinvMin.globMem with hg | hg
    · obtain ⟨v0, hv0⟩ := List.exists_mem_of_ne_nil vals hne
      have heq : (min_exec vals csMin).glob = v0 :=
        le_antisymm (hminLe v0 hv0) (by rw [hg]; exact hhi v0 hv0)
      rw [heq]; exact hv0
    · exact hg
  · rcases hinvMax.globMem with hg | hg
    · obtain ⟨v0, hv0⟩ := List.exists_mem_of_ne_nil vals hne
      have heq : (max_exec vals csMax).glob = v0 :=
        le_antisymm (by rw [hg]; exact hlo v0 hv0) (hmaxGe v0 hv0)
      rw [heq]; exact hv0
    · exact hg

/-- Witness for `latency_extrema_no_lost_updates`: two recorded values 7 and
3, with explicit schedulers that complete every retry loop. -/
theorem latency_extrema_witness :
    ((min_exec [7, 3]
        [CasChoice.load 0, CasChoice.cas 0 false, CasChoice.load 1,
          CasChoice.cas 1 false]).glob ∈ [7, 3] ∧
      ∀ v ∈ [(7 : Int), 3],
        (min_exec [7, 3]
          [CasChoice.load 0, CasChoice.cas 0 false, CasChoice.load 1,
            CasChoice.cas 1 false]).glob ≤ v) ∧
    ((max_exec [7, 3]
        [CasChoice.load 0, CasChoice.cas 0 false, CasChoice.load 1,
          CasChoice.leave 1]).glob ∈ [7, 3] ∧
      ∀ v ∈ [(7 : Int), 3],
        v ≤ (max_exec [7, 3]
          [CasChoice.load 0, CasChoice.cas 0 false, CasChoice.load 1,
            CasChoice.leave 1]).glob) :=
  latency_extrema_no_lost_updates [7, 3]
    [CasChoice.load 0, CasChoice.cas 0 false, CasChoice.load 1, CasChoice.cas 1 false]
    [CasChoice.load 0, CasChoice.cas 0 false, CasChoice.load 1, CasChoice.leave 1]
    (by decide) (by decide) (by decide) (by decide) (by decide)

end StreamPipeline
